import Mathlib

/-
Verification of untwist/data/audio.py (Wave, Spectrum, Spectrogram and the
time-frequency masks), as a shallow embedding.  Time-domain buffers are
modelled over ℚ (the float arithmetic of the code is exact on the inputs the
claims use), spectral buffers over ℂ, and masks over ℝ, since the mask
algorithms use log10 and real powers.
-/

/-- Time-domain signal (`Wave`): a 2-D buffer, one column per channel, plus a
sample rate and an optional playback stream handle (`self.stream`).  Entries
outside the `frames` x `channels` range are irrelevant padding. -/
structure Wave where
  frames : ℕ
  channels : ℕ
  data : ℕ → ℕ → ℚ
  sample_rate : ℕ
  stream : Option ℕ

/-- `np.max` over a vector, as the source uses it (the empty case is a numpy
error, never reached in the claims; it is given the junk value 0). -/
def listMax : List ℚ → ℚ
  | [] => 0
  | x :: xs => xs.foldl max x

/-- `np.max(self, 0)`: per-column (per-channel) maximum over the frames. -/
def colMax (w : Wave) (j : ℕ) : ℚ :=
  listMax ((List.range w.frames).map (fun i => w.data i j))

/-- `Wave.normalize`: `Wave(np.divide(self, np.max(self, 0)), self.sample_rate)`.
Division by the per-column signed maximum (not the absolute maximum); the
fresh `Wave.__init__` sets `stream = None`. -/
def Wave.normalize (w : Wave) : Wave :=
  { frames := w.frames, channels := w.channels,
    data := fun i j => w.data i j / colMax w j,
    sample_rate := w.sample_rate, stream := none }

/-- Outcome of `Wave.mix`: a wave, an `ArgumentException`, or the `IndexError`
that an empty input list produces at `waves[0]`. -/
inductive MixResult where
  | ok : Wave → MixResult
  | argumentException : String → MixResult
  | indexError : MixResult

/-- `Wave.mix(waves)`.  One input: return its normalized copy.  Two or more:
raise `ArgumentException` when the frame counts or channel counts differ
(`len(set(lengths)) > 1 or len(set(widths)) > 1`); otherwise accumulate
`mixed = mixed + w / len(waves)`.  The source calls `w.normalize()` inside the
loop but discards its return value (normalize is pure and returns a new
array), so the raw, unnormalized samples are averaged. -/
def Wave.mix : List Wave → MixResult
  | [] => MixResult.indexError
  | [w] => MixResult.ok w.normalize
  | w0 :: w1 :: rest =>
    if 1 < ((w0 :: w1 :: rest).map Wave.frames).dedup.length ∨
        1 < ((w0 :: w1 :: rest).map Wave.channels).dedup.length then
      MixResult.argumentException "inputs should have the same shape"
    else
      MixResult.ok
        { frames := w0.frames, channels := w0.channels,
          data := fun i j => ((w0 :: w1 :: rest).map
            (fun w => w.data i j / (((w0 :: w1 :: rest).length : ℚ)))).sum,
          sample_rate := w0.sample_rate, stream := none }

/-- `Wave.stop`: `audio_driver.stop(self.stream)` followed by
`self.stream = None`.  The driver call is an external collaborator and may
raise (modelled by `Except.error`); when it raises, the Python assignment does
not run and the object keeps its old handle.  The result pairs the outcome of
the call with the post-state of the wave. -/
def Wave.stop (driverStop : Option ℕ → Except String Unit) (w : Wave) :
    Except String Unit × Wave :=
  match driverStop w.stream with
  | Except.ok _ => (Except.ok (), { w with stream := none })
  | Except.error e => (Except.error e, w)

/-- `np.iinfo(np.dtype('int16')).min`, the divisor used by `Wave.read`. -/
def int16min : Int := -32768

/-- The int16-to-float conversion of `Wave.read`:
`samples.astype(types.float_) / np.iinfo(np.dtype('int16')).min`. -/
def pcmScale (s : Int) : ℚ := (s : ℚ) / ((int16min : Int) : ℚ)

/-- `Wave.read` on a decoded 1-D (mono) int16 stream: scale every sample by
`pcmScale` and reshape `(N,)` to `(N, 1)`; the decoded sample rate is kept. -/
def Wave.read1d (sr : ℕ) (samples : List Int) : Wave :=
  { frames := samples.length, channels := 1,
    data := fun i _ => pcmScale (samples.getD i 0),
    sample_rate := sr, stream := none }

/-- `Signal.num_channels` as a function of the ndarray shape:
`1 if len(self.shape)==1 else self.shape[1]`. -/
def Signal.numChannels (shape : List ℕ) : ℕ :=
  if shape.length = 1 then 1 else shape.getD 1 0

/-- `Signal.num_frames`: `self.shape[0]`. -/
def Signal.numFrames (shape : List ℕ) : ℕ := shape.getD 0 0

/-- `ensure2D` at the level of shapes: rank-1 `(n,)` becomes `(n, 1)`, anything
else is returned unchanged. -/
def ensure2Dshape : List ℕ → List ℕ
  | [n] => [n, 1]
  | s => s

/-- The metadata attributes a `Spectrum`/`Spectrogram` object may carry; an
absent Python attribute is `none`, so `getattr(obj, name, None)` is plain
field access. -/
structure Meta where
  sample_rate : Option ℕ
  window_size : Option ℕ
  hop_size : Option ℕ
deriving DecidableEq

/-- `Spectrum.__array_finalize__`: the source assigns
`getattr(obj, 'sample_rate', None)`, then `getattr(obj, 'window_size', None)`,
then `getattr(obj, 'hop_size', None)` — each of the three to
`self.sample_rate`.  `window_size` and `hop_size` are never set on the result. -/
def Spectrum.arrayFinalize (obj : Meta) : Meta :=
  let self : Meta := ⟨none, none, none⟩
  let self := { self with sample_rate := obj.sample_rate }
  let self := { self with sample_rate := obj.window_size }
  let self := { self with sample_rate := obj.hop_size }
  self

/-- `Spectrogram.__array_finalize__`: copies `sample_rate`, `window_size` and
`hop_size` from the source object, each to its own attribute. -/
def Spectrogram.arrayFinalize (obj : Meta) : Meta :=
  let self : Meta := ⟨none, none, none⟩
  let self := { self with sample_rate := obj.sample_rate }
  let self := { self with window_size := obj.window_size }
  let self := { self with hop_size := obj.hop_size }
  self

/-- Metadata of the result of an elementwise or shape-preserving numpy
operation on `Spectrum` buffers: the fresh result array (same concrete class)
is finalized from the first metadata-bearing operand. -/
def spectrumOpMeta (a : Meta) (_ : Meta) : Meta := Spectrum.arrayFinalize a

/-- Metadata of the result of an elementwise or shape-preserving numpy
operation on `Spectrogram` buffers, finalized from the first operand. -/
def spectrogramOpMeta (a : Meta) (_ : Meta) : Meta := Spectrogram.arrayFinalize a

/-- A `Spectrum` constructed through `Signal.__new__(cls, data, sample_rate)`
carries only `sample_rate`; it has no `window_size` or `hop_size` attribute. -/
def plainSpectrumMeta (sr : ℕ) : Meta := ⟨some sr, none, none⟩

/-- Complex spectrogram object: rows are frequency bins, columns are time
frames, plus the three metadata attributes. -/
structure Spectrogram where
  rows : ℕ
  cols : ℕ
  data : ℕ → ℕ → ℂ
  sample_rate : Option ℕ
  window_size : Option ℕ
  hop_size : Option ℕ

/-- `Spectrogram.num_channels`: always 1, overriding `Signal`. -/
def Spectrogram.num_channels (_ : Spectrogram) : ℕ := 1

/-- `Spectrogram.num_frames`: `self.shape[1]`, overriding `Signal`. -/
def Spectrogram.num_frames (s : Spectrogram) : ℕ := s.cols

/-- `Spectrogram(data, ...)` built from a 1-D buffer of length `N`:
`ensure2D` reshapes it to `(N, 1)`. -/
def Spectrogram.make1d (xs : List ℂ) (sr ws hs : ℕ) : Spectrogram :=
  { rows := xs.length, cols := 1,
    data := fun i _ => xs.getD i 0,
    sample_rate := some sr, window_size := some ws, hop_size := some hs }

/-- `Spectrogram(data, ...)` built from a 2-D buffer (list of rows). -/
def Spectrogram.make2d (m : List (List ℂ)) (sr ws hs : ℕ) : Spectrogram :=
  { rows := m.length, cols := (m.headD []).length,
    data := fun i j => (m.getD i []).getD j 0,
    sample_rate := some sr, window_size := some ws, hop_size := some hs }

/-- Real-valued time-frequency mask, the buffer produced by the mask builders. -/
structure TFMask where
  rows : ℕ
  cols : ℕ
  data : ℕ → ℕ → ℝ
  sample_rate : Option ℕ
  window_size : Option ℕ
  hop_size : Option ℕ

/-- `eps = np.spacing(1)`, exactly 2 to the power -52. -/
noncomputable def eps : ℝ := 1 / 2 ^ 52

/-- `BinaryMask(target, background, threshold)`:
`tm = target.magnitude() + eps`, `bm = background.magnitude() + eps`,
`mask = (20 * np.log10(tm / bm) > threshold).astype(float_)`; the metadata is
then overwritten with the target's. -/
noncomputable def BinaryMask.make (target background : Spectrogram)
    (threshold : ℝ) : TFMask :=
  { rows := target.rows, cols := target.cols,
    data := fun i j =>
      if 20 * Real.logb 10 ((Complex.abs (target.data i j) + eps) /
          (Complex.abs (background.data i j) + eps)) > threshold then 1 else 0,
    sample_rate := target.sample_rate,
    window_size := target.window_size,
    hop_size := target.hop_size }

/-- `RatioMask(target, background, p)`:
`mask = (tm ** p / (tm + bm) ** p).astype(float_)` with `tm`, `bm` as in
`BinaryMask`; the metadata is then overwritten with the target's. -/
noncomputable def RatioMask.make (target background : Spectrogram)
    (p : ℝ) : TFMask :=
  { rows := target.rows, cols := target.cols,
    data := fun i j =>
      (Complex.abs (target.data i j) + eps) ^ p /
        ((Complex.abs (target.data i j) + eps) +
          (Complex.abs (background.data i j) + eps)) ^ p,
    sample_rate := target.sample_rate,
    window_size := target.window_size,
    hop_size := target.hop_size }

/- Helper lemmas about folded maxima, shared by the normalization theorems. -/

lemma le_foldl_max (xs : List ℚ) : ∀ a : ℚ, a ≤ xs.foldl max a := by
  induction xs with
  | nil => intro a; simp
  | cons x xs ih =>
    intro a
    rw [List.foldl_cons]
    exact le_trans (le_max_left a x) (ih (max a x))

lemma mem_le_foldl_max (xs : List ℚ) :
    ∀ a y : ℚ, y ∈ xs → y ≤ xs.foldl max a := by
  induction xs with
  | nil => intro a y hy; simp at hy
  | cons x xs ih =>
    intro a y hy
    rw [List.foldl_cons]
    rcases List.mem_cons.mp hy with h | h
    · subst h; exact le_trans (le_max_right a y) (le_foldl_max xs (max a y))
    · exact ih (max a x) y h

lemma foldl_max_cases (xs : List ℚ) :
    ∀ a : ℚ, xs.foldl max a = a ∨ xs.foldl max a ∈ xs := by
  induction xs with
  | nil => intro a; left; rfl
  | cons x xs ih =>
    intro a
    rw [List.foldl_cons]
    rcases ih (max a x) with h | h
    · rcases max_choice a x with hm | hm
      · left; rw [h, hm]
      · right; rw [h, hm]; exact List.mem_cons_self x xs
    · right; exact List.mem_cons_of_mem x h

lemma foldl_max_map_div (c : ℚ) (hc : 0 < c) (xs : List ℚ) :
    ∀ a : ℚ, (xs.map (fun y => y / c)).foldl max (a / c) = xs.foldl max a / c := by
  induction xs with
  | nil => intro a; rfl
  | cons x xs ih =>
    intro a
    rw [List.map_cons, List.foldl_cons, List.foldl_cons,
      max_div_div_right hc.le a x]
    exact ih (max a x)

lemma listMax_ge {l : List ℚ} {y : ℚ} (hy : y ∈ l) : y ≤ listMax l := by
  cases l with
  | nil => simp at hy
  | cons x xs =>
    rcases List.mem_cons.mp hy with h | h
    · subst h; exact le_foldl_max xs y
    · exact mem_le_foldl_max xs x y h

lemma listMax_mem {l : List ℚ} (hl : l ≠ []) : listMax l ∈ l := by
  cases l with
  | nil => exact absurd rfl hl
  | cons x xs =>
    rcases foldl_max_cases xs x with h | h
    · rw [listMax, h]; exact List.mem_cons_self x xs
    · exact List.mem_cons_of_mem x h

lemma listMax_map_div (c : ℚ) (hc : 0 < c) (l : List ℚ) :
    listMax (l.map (fun y => y / c)) = listMax l / c := by
  cases l with
  | nil => simp [listMax]
  | cons x xs => exact foldl_max_map_div c hc xs x

lemma colMax_ge (w : Wave) (j i : ℕ) (hi : i < w.frames) :
    w.data i j ≤ colMax w j :=
  listMax_ge (List.mem_map_of_mem _ (List.mem_range.mpr hi))

lemma colMax_attained (w : Wave) (j : ℕ) (h : 0 < w.frames) :
    ∃ i, i < w.frames ∧ colMax w j = w.data i j := by
  have hne : (List.range w.frames).map (fun i => w.data i j) ≠ [] := by
    simp [List.range_eq_nil, Nat.pos_iff_ne_zero.mp h]
  obtain ⟨i, hi, hval⟩ := List.mem_map.mp (listMax_mem hne)
  exact ⟨i, List.mem_range.mp hi, hval.symm⟩

lemma colMax_normalize (w : Wave) (j : ℕ) (hc : 0 < colMax w j) :
    colMax w.normalize j = 1 := by
  have h1 : colMax w.normalize j =
      listMax (((List.range w.frames).map (fun i => w.data i j)).map
        (fun y => y / colMax w j)) := by
    rw [colMax, List.map_map]
    rfl
  rw [h1, listMax_map_div _ hc, ← colMax, div_self hc.ne']

lemma one_lt_dedup_length {a b : ℕ} {l : List ℕ} (ha : a ∈ l) (hb : b ∈ l)
    (hab : a ≠ b) : 1 < l.dedup.length := by
  have ha' : a ∈ l.dedup := List.mem_dedup.mpr ha
  have hb' : b ∈ l.dedup := List.mem_dedup.mpr hb
  by_contra hlen
  push_neg at hlen
  rcases hd : l.dedup with _ | ⟨x, tl⟩
  · rw [hd] at ha'; exact (List.not_mem_nil a) ha'
  · rw [hd] at ha' hb' hlen
    have htl : tl = [] := by
      simp only [List.length_cons] at hlen
      exact List.eq_nil_of_length_eq_zero (by omega)
    subst htl
    simp only [List.mem_singleton] at ha' hb'
    exact hab (ha'.trans hb'.symm)

/-- Claim C2 (code bug): the metadata-propagation invariant holds for
Spectrogram operations, but `Spectrum.__array_finalize__` assigns all three
`getattr` results to `self.sample_rate`, so the result of an elementwise
operation on a plain Spectrum (which has no `hop_size` attribute) ends with
`sample_rate = None` instead of the first operand's 44100. -/
theorem spectrum_finalize_drops_sample_rate :
    (∀ a b : Meta, spectrogramOpMeta a b = a) ∧
    (spectrumOpMeta (plainSpectrumMeta 44100) (plainSpectrumMeta 44100)).sample_rate = none ∧
    (plainSpectrumMeta 44100).sample_rate = some 44100 ∧
    (none : Option ℕ) ≠ some 44100 := by
  refine ⟨fun a b => rfl, rfl, rfl, by decide⟩

/-- Claim C8: a Spectrogram reports `num_channels = 1` and
`num_frames = self.shape[1]` (the column count), whatever the shape of the
buffer it was built from, overriding the frames-are-rows convention of
`Signal` (`num_frames = shape[0]`, `num_channels = shape[1]`). -/
theorem spectrogram_shape_overrides (s : Spectrogram) (xs : List ℂ)
    (m : List (List ℂ)) (sr ws hs n r c : ℕ) :
    s.num_channels = 1 ∧
    s.num_frames = s.cols ∧
    (Spectrogram.make1d xs sr ws hs).num_channels = 1 ∧
    (Spectrogram.make2d m sr ws hs).num_channels = 1 ∧
    (Spectrogram.make2d m sr ws hs).num_frames = (m.headD []).length ∧
    ensure2Dshape [n] = [n, 1] ∧
    ensure2Dshape [r, c] = [r, c] ∧
    Signal.numFrames [s.rows, s.cols] = s.rows ∧
    Signal.numChannels [s.rows, s.cols] = s.cols :=
  ⟨rfl, rfl, rfl, rfl, rfl, rfl, rfl, rfl, rfl⟩

/-- Claim C3: a BinaryMask cell is 1.0 exactly where the decibel ratio
`20 * log10((|target| + eps) / (|background| + eps))` is strictly greater than
the threshold and 0.0 elsewhere; consequently `BinaryMask(target, target, 0)`
is all-zero (the ratio is exactly 0 dB, never strictly greater than 0). -/
theorem binaryMask_cells (t b : Spectrogram) (thr : ℝ) (i j : ℕ) :
    ((BinaryMask.make t b thr).data i j = 1 ↔
      20 * Real.logb 10 ((Complex.abs (t.data i j) + eps) /
        (Complex.abs (b.data i j) + eps)) > thr) ∧
    ((BinaryMask.make t b thr).data i j = 0 ↔
      ¬ 20 * Real.logb 10 ((Complex.abs (t.data i j) + eps) /
        (Complex.abs (b.data i j) + eps)) > thr) ∧
    (BinaryMask.make t t 0).data i j = 0 := by
  have heps : (0 : ℝ) < eps := by unfold eps; positivity
  refine ⟨?_, ?_, ?_⟩
  · simp only [BinaryMask.make]
    split_ifs with h
    · simp [h]
    · simp [h]
  · simp only [BinaryMask.make]
    split_ifs with h
    · simp [h]
    · simp [h]
  · have hpos : (0 : ℝ) < Complex.abs (t.data i j) + eps :=
      add_pos_of_nonneg_of_pos (Complex.abs.nonneg _) heps
    simp only [BinaryMask.make]
    rw [div_self hpos.ne', Real.logb_one, mul_zero, if_neg (lt_irrefl 0)]

/-- Claim C4: a RatioMask cell is `tm ^ p / (tm + bm) ^ p` with
`tm = |target| + eps`, `bm = |background| + eps`; `RatioMask(t, t, 1)` is 0.5
everywhere, and at `p = 1` every cell lies strictly between 0 and 1. -/
theorem ratioMask_cells (t b : Spectrogram) (p : ℝ) (i j : ℕ) :
    (RatioMask.make t b p).data i j =
      (Complex.abs (t.data i j) + eps) ^ p /
        ((Complex.abs (t.data i j) + eps) +
          (Complex.abs (b.data i j) + eps)) ^ p ∧
    (RatioMask.make t t 1).data i j = 1 / 2 ∧
    0 < (RatioMask.make t b 1).data i j ∧
    (RatioMask.make t b 1).data i j < 1 := by
  have heps : (0 : ℝ) < eps := by unfold eps; positivity
  have htm : (0 : ℝ) < Complex.abs (t.data i j) + eps :=
    add_pos_of_nonneg_of_pos (Complex.abs.nonneg _) heps
  have hbm : (0 : ℝ) < Complex.abs (b.data i j) + eps :=
    add_pos_of_nonneg_of_pos (Complex.abs.nonneg _) heps
  refine ⟨rfl, ?_, ?_, ?_⟩
  · show (Complex.abs (t.data i j) + eps) ^ (1 : ℝ) /
      ((Complex.abs (t.data i j) + eps) + (Complex.abs (t.data i j) + eps)) ^ (1 : ℝ)
        = 1 / 2
    rw [Real.rpow_one, Real.rpow_one, ← two_mul]
    rw [div_eq_div_iff (by linarith) (two_ne_zero)]
    ring
  · show 0 < (Complex.abs (t.data i j) + eps) ^ (1 : ℝ) /
      ((Complex.abs (t.data i j) + eps) + (Complex.abs (b.data i j) + eps)) ^ (1 : ℝ)
    rw [Real.rpow_one, Real.rpow_one]
    exact div_pos htm (by linarith)
  · show (Complex.abs (t.data i j) + eps) ^ (1 : ℝ) /
      ((Complex.abs (t.data i j) + eps) + (Complex.abs (b.data i j) + eps)) ^ (1 : ℝ)
        < 1
    rw [Real.rpow_one, Real.rpow_one, div_lt_one (by linarith)]
    linarith

/-- Claim C6: `normalize()` returns a new Wave whose every element is the
corresponding element divided by the per-column maximum over frames (the
signed maximum — an upper bound that is attained, not the maximum of the
absolute value), with the same sample rate, leaving the original unchanged
(the embedding is pure, so the input is untouched by construction). -/
theorem normalize_spec (w : Wave) (h : 0 < w.frames) :
    w.normalize.sample_rate = w.sample_rate ∧
    w.normalize.frames = w.frames ∧
    w.normalize.channels = w.channels ∧
    (∀ i j, w.normalize.data i j = w.data i j / colMax w j) ∧
    (∀ j i, i < w.frames → w.data i j ≤ colMax w j) ∧
    (∀ j, ∃ i, i < w.frames ∧ colMax w j = w.data i j) :=
  ⟨rfl, rfl, rfl, fun _ _ => rfl,
    fun j i hi => colMax_ge w j i hi,
    fun j => colMax_attained w j h⟩

/-- Witness for claim C6 at a concrete wave. -/
theorem normalize_spec_witness :
    0 < (Wave.mk 2 1 (fun i _ => (i : ℚ) + 1) 44100 none).frames ∧
    (Wave.mk 2 1 (fun i _ => (i : ℚ) + 1) 44100 none).normalize.sample_rate = 44100 :=
  ⟨by decide,
    (normalize_spec (Wave.mk 2 1 (fun i _ => (i : ℚ) + 1) 44100 none) (by decide)).1⟩

/-- Claim C10: when every column's maximum is strictly positive, every column
of `normalize()` has per-column maximum exactly 1, and normalize is
idempotent: normalizing twice gives the same values (on every channel) and the
same sample rate as normalizing once. -/
theorem normalize_idempotent (w : Wave)
    (h : ∀ j, j < w.channels → 0 < colMax w j) :
    (∀ j, j < w.channels → colMax w.normalize j = 1) ∧
    w.normalize.normalize.sample_rate = w.normalize.sample_rate ∧
    w.normalize.normalize.frames = w.normalize.frames ∧
    w.normalize.normalize.channels = w.normalize.channels ∧
    (∀ i j, j < w.channels → w.normalize.normalize.data i j = w.normalize.data i j) := by
  have hcm : ∀ j, j < w.channels → colMax w.normalize j = 1 :=
    fun j hj => colMax_normalize w j (h j hj)
  refine ⟨hcm, rfl, rfl, rfl, ?_⟩
  intro i j hj
  show w.normalize.data i j / colMax w.normalize j = w.normalize.data i j
  rw [hcm j hj, div_one]

/-- Witness for claim C10 at a concrete wave with positive column maximum. -/
theorem normalize_idempotent_witness :
    colMax (Wave.mk 2 1 (fun _ _ => (2 : ℚ)) 8000 none).normalize 0 = 1 :=
  (normalize_idempotent (Wave.mk 2 1 (fun _ _ => (2 : ℚ)) 8000 none)
    (by decide)).1 0 (by decide)

/-- Claim C7: `mix` on two or more waves in which some two inputs differ in
frame count or in channel count returns the `ArgumentException` with message
"inputs should have the same shape" and produces no wave (the inputs are
untouched: the embedding is pure). -/
theorem mix_shape_mismatch (w0 w1 : Wave) (rest : List Wave)
    (h : ∃ a ∈ w0 :: w1 :: rest, ∃ b ∈ w0 :: w1 :: rest,
      a.frames ≠ b.frames ∨ a.channels ≠ b.channels) :
    Wave.mix (w0 :: w1 :: rest) =
      MixResult.argumentException "inputs should have the same shape" := by
  obtain ⟨a, ha, b, hb, hab⟩ := h
  have hcond : 1 < ((w0 :: w1 :: rest).map Wave.frames).dedup.length ∨
      1 < ((w0 :: w1 :: rest).map Wave.channels).dedup.length := by
    rcases hab with h' | h'
    · exact Or.inl (one_lt_dedup_length (List.mem_map_of_mem Wave.frames ha)
        (List.mem_map_of_mem Wave.frames hb) h')
    · exact Or.inr (one_lt_dedup_length (List.mem_map_of_mem Wave.channels ha)
        (List.mem_map_of_mem Wave.channels hb) h')
  rw [Wave.mix, if_pos hcond]

/-- Witness for claim C7: mixing a 1-frame wave with a 2-frame wave raises the
exception. -/
theorem mix_shape_mismatch_witness :
    Wave.mix [Wave.mk 1 1 (fun _ _ => 0) 44100 none,
        Wave.mk 2 1 (fun _ _ => 0) 44100 none] =
      MixResult.argumentException "inputs should have the same shape" :=
  mix_shape_mismatch (Wave.mk 1 1 (fun _ _ => 0) 44100 none)
    (Wave.mk 2 1 (fun _ _ => 0) 44100 none) []
    ⟨Wave.mk 1 1 (fun _ _ => 0) 44100 none, by simp,
      Wave.mk 2 1 (fun _ _ => 0) 44100 none, by simp,
      Or.inl (by decide)⟩

/-- Claim C5: for int16 sources, `Wave.read` divides every sample by the most
negative 16-bit value (-32768); on the int16 domain the results lie in the
asymmetric range (-1, 1] with a uniform magnitude scale of 1/32768, and the
samples come back 2-D (N rows, 1 channel) at the decoded sample rate. -/
theorem wave_read_int16 (sr : ℕ) (samples : List Int) (s : Int)
    (h1 : -32768 ≤ s) (h2 : s ≤ 32767) :
    (Wave.read1d sr samples).sample_rate = sr ∧
    (Wave.read1d sr samples).frames = samples.length ∧
    (Wave.read1d sr samples).channels = 1 ∧
    (∀ i, (Wave.read1d sr samples).data i 0 = (samples.getD i 0 : ℚ) / (-32768)) ∧
    -1 < pcmScale s ∧ pcmScale s ≤ 1 ∧ |pcmScale s| = |(s : ℚ)| / 32768 := by
  have hs1 : (-32768 : ℚ) ≤ (s : ℚ) := by exact_mod_cast h1
  have hs2 : ((s : ℚ)) ≤ 32767 := by exact_mod_cast h2
  have hp : pcmScale s = -((s : ℚ) / 32768) := by
    unfold pcmScale int16min
    push_cast
    ring
  refine ⟨rfl, rfl, rfl, ?_, ?_, ?_, ?_⟩
  · intro i
    show pcmScale (samples.getD i 0) = _
    unfold pcmScale int16min
    norm_num
  · rw [hp]; linarith
  · rw [hp]; linarith
  · rw [hp, abs_neg, abs_div, abs_of_pos (show (0 : ℚ) < 32768 by norm_num)]

/-- Witness for claim C5 at the most negative sample, where the value 1 is
attained. -/
theorem wave_read_int16_witness :
    pcmScale (-32768) ≤ 1 ∧ -1 < pcmScale (-32768) :=
  ⟨(wave_read_int16 44100 [] (-32768) (by decide) (by decide)).2.2.2.2.2.1,
    (wave_read_int16 44100 [] (-32768) (by decide) (by decide)).2.2.2.2.1⟩

/-- Value at cell (0,0) of a successful mix, used to evaluate `Wave.mix` at a
concrete input. -/
def mixData00 : MixResult → ℚ
  | MixResult.ok m => m.data 0 0
  | _ => 0

/-- Sample rate of a successful mix. -/
def mixSampleRate : MixResult → ℕ
  | MixResult.ok m => m.sample_rate
  | _ => 0

/-- Claim C1 (code bug): the source's mix loop calls `w.normalize()` but
discards the returned array, so `mix([w, w])` averages the raw inputs.  For
the constant wave w = [[2]], `mix([w, w])` keeps the value 2 while
`w.normalize()` has value 1, refuting `mix([w, w]) = w.normalize()`. -/
theorem mix_discards_normalize :
    mixData00 (Wave.mix [Wave.mk 1 1 (fun _ _ => 2) 44100 none,
        Wave.mk 1 1 (fun _ _ => 2) 44100 none]) = 2 ∧
    mixSampleRate (Wave.mix [Wave.mk 1 1 (fun _ _ => 2) 44100 none,
        Wave.mk 1 1 (fun _ _ => 2) 44100 none]) = 44100 ∧
    (Wave.mk 1 1 (fun _ _ => 2) 44100 none).normalize.data 0 0 = 1 ∧
    (2 : ℚ) ≠ 1 := by
  refine ⟨by norm_num [Wave.mix, mixData00], by decide,
    by norm_num [Wave.normalize, colMax, listMax], by norm_num⟩

/-- Claim C9, counterexample: when the driver's stop call raises, the
assignment `self.stream = None` in `Wave.stop` never runs, so the handle is
not null afterwards. -/
theorem stop_failure_keeps_handle :
    ((Wave.stop (fun _ => Except.error "device error")
      (Wave.mk 0 0 (fun _ _ => 0) 44100 (some 7))).2).stream = some 7 ∧
    some 7 ≠ (none : Option ℕ) :=
  ⟨rfl, by decide⟩

/-- Claim C9, amended: `stop()` delegates release of the stored handle to the
driver; when the driver call returns normally the stream handle is reset to
null, and when the driver call raises, the exception propagates and the wave
keeps its old handle. -/
theorem stop_resets_handle (d : Option ℕ → Except String Unit) (w : Wave) :
    ((∃ u, d w.stream = Except.ok u) →
      (Wave.stop d w).2.stream = none ∧ (Wave.stop d w).1 = Except.ok ()) ∧
    (∀ e, d w.stream = Except.error e →
      (Wave.stop d w).2 = w ∧ (Wave.stop d w).1 = Except.error e) := by
  constructor
  · rintro ⟨u, hu⟩
    unfold Wave.stop
    rw [hu]
    exact ⟨rfl, rfl⟩
  · intro e he
    unfold Wave.stop
    rw [he]
    exact ⟨rfl, rfl⟩

/-- Witness for the amended claim C9 with a succeeding driver. -/
theorem stop_resets_handle_witness :
    ((Wave.stop (fun _ => Except.ok ())
      (Wave.mk 0 0 (fun _ _ => 0) 44100 (some 3))).2).stream = none :=
  ((stop_resets_handle (fun _ => Except.ok ())
    (Wave.mk 0 0 (fun _ _ => 0) 44100 (some 3))).1 ⟨(), rfl⟩).1
